import Mathlib

/-!
Shallow embedding of the rubrix dataset-management backend core:
the datasets API routes (src/rubrix/server/datasets/api.py), the local
users service (src/rubrix/server/security/auth_provider/local/users/service.py)
and the generated SDK additional-property container
(src/rubrix/sdk/models/token_classification_aggregations_mentions_additional_property.py).
Components whose source is not part of the snapshot (the DatasetsService
implementation behind the routes, the users DAO and the passlib crypt
context) are modelled from the specification, as marked on each definition.
-/

namespace Rubrix

/-- Lifecycle state of a dataset: Open (backend resources allocated and
queryable) or Closed (backend resources released). -/
inductive DatasetState
  | Open
  | Closed
deriving DecidableEq, Repr

/-- A stored dataset record: name (unique within its owning group, not
globally), owning group, lifecycle state, and the update-able settings
subset (modelled as string-keyed integer fields, merge semantics). -/
structure Dataset where
  name : String
  owner : String
  state : DatasetState
  settings : List (String × Int)
deriving DecidableEq, Repr

/-- Typed failures surfaced by the dataset service: EntityNotFoundError
and NotAuthorizedError in the python code. -/
inductive ServiceError
  | NotFound
  | NotAuthorized
deriving DecidableEq, Repr

/-- Python dict assignment `d[k] = v` on an insertion-ordered association
list: if the key is present its value is replaced in place, otherwise the
pair is appended at the end. -/
def dictSet (l : List (String × Int)) (k : String) (v : Int) : List (String × Int) :=
  if l.any (fun p => p.1 == k) then
    l.map (fun p => if p.1 == k then (k, v) else p)
  else
    l ++ [(k, v)]

namespace DatasetsService

/-- Modelled from the spec: `DatasetsService.list` (the datasets service
implementation module is not in the snapshot). Returns every dataset whose
owner is a member of the given set, in store order; returns an empty
sequence (never an error) when nothing matches. -/
def list (store : List Dataset) (owners : List String) : List Dataset :=
  store.filter (fun d => owners.contains d.owner)

/-- Modelled from the spec: `DatasetsService.find_by_name` (the datasets
service implementation module is not in the snapshot). Resolves existence
before authorization: fails NotFound when no dataset with the name exists
for any owner, NotAuthorized when one exists but none belongs to the given
owner, and returns the owner-scoped record otherwise. -/
def find_by_name (store : List Dataset) (name owner : String) : Except ServiceError Dataset :=
  if store.any (fun d => d.name == name) then
    match store.find? (fun d => d.name == name && d.owner == owner) with
    | some d => Except.ok d
    | none => Except.error ServiceError.NotAuthorized
  else
    Except.error ServiceError.NotFound

/-- Merge of a partial update into the stored settings: every key present
in the update data overwrites the stored value, every key absent from the
data is left untouched. -/
def mergeSettings (settings data : List (String × Int)) : List (String × Int) :=
  data.foldl (fun acc p => dictSet acc p.1 p.2) settings

/-- Replace the stored record at (name, owner) by the given record,
leaving every other record in place. -/
def putDataset (store : List Dataset) (name owner : String) (d2 : Dataset) : List Dataset :=
  store.map (fun e => if e.name == name && e.owner == owner then d2 else e)

/-- Modelled from the spec: `DatasetsService.update` (the datasets service
implementation module is not in the snapshot). Same two-step resolution as
find_by_name, then merges the partial data into the stored record, persists
it and returns the post-merge record. -/
def update (store : List Dataset) (name : String) (data : List (String × Int))
    (owner : String) : Except ServiceError (Dataset × List Dataset) :=
  (find_by_name store name owner).map (fun d =>
    let d2 : Dataset := { d with settings := mergeSettings d.settings data }
    (d2, putDataset store name owner d2))

/-- Removal of the (name, owner) record from the store. -/
def removeDataset (store : List Dataset) (name owner : String) : List Dataset :=
  store.filter (fun d => !(d.name == name && d.owner == owner))

/-- Modelled from the spec: `DatasetsService.delete` (the datasets service
implementation module is not in the snapshot). Same two-step resolution as
find_by_name, then removes the record; deleting a nonexistent or forbidden
dataset fails rather than succeeding silently. -/
def delete (store : List Dataset) (name owner : String) : Except ServiceError (List Dataset) :=
  (find_by_name store name owner).map (fun _ => removeDataset store name owner)

/-- Set the lifecycle state of the (name, owner) record, leaving every
other record in place. -/
def setState (store : List Dataset) (name owner : String) (st : DatasetState) :
    List Dataset :=
  store.map (fun d => if d.name == name && d.owner == owner then { d with state := st } else d)

/-- Modelled from the spec: `DatasetsService.close_dataset` (the datasets
service implementation module is not in the snapshot). Same two-step
resolution, then transitions the record to Closed; closing an already
closed dataset is a no-op success. -/
def close_dataset (store : List Dataset) (name owner : String) :
    Except ServiceError (List Dataset) :=
  (find_by_name store name owner).map (fun _ =>
    setState store name owner DatasetState.Closed)

/-- Modelled from the spec: `DatasetsService.open_dataset` (the datasets
service implementation module is not in the snapshot). Same two-step
resolution, then transitions the record to Open; opening an already open
dataset is a no-op success. -/
def open_dataset (store : List Dataset) (name owner : String) :
    Except ServiceError (List Dataset) :=
  (find_by_name store name owner).map (fun _ =>
    setState store name owner DatasetState.Open)

end DatasetsService

/-- The resolved request user as the dataset routes see it: the full set of
groups the user belongs to, and the single group selected as the ownership
scope of the current request. -/
structure User where
  user_groups : List String
  current_group : String
deriving DecidableEq, Repr

namespace DatasetsApi

/-- Route `GET /datasets/` (src/rubrix/server/datasets/api.py, list_datasets):
lists the datasets visible to the current user, passing the user's full
user_groups set to the service. -/
def list_datasets (store : List Dataset) (current_user : User) : List Dataset :=
  DatasetsService.list store current_user.user_groups

/-- Route `GET /datasets/{name}` (src/rubrix/server/datasets/api.py,
get_dataset): finds a dataset by name, scoped to the user's current_group. -/
def get_dataset (store : List Dataset) (name : String) (current_user : User) :
    Except ServiceError Dataset :=
  DatasetsService.find_by_name store name current_user.current_group

/-- Route `PATCH /datasets/{name}` (src/rubrix/server/datasets/api.py,
update_dataset): updates a set of parameters, scoped to current_group. -/
def update_dataset (store : List Dataset) (name : String)
    (update_request : List (String × Int)) (current_user : User) :
    Except ServiceError (Dataset × List Dataset) :=
  DatasetsService.update store name update_request current_user.current_group

/-- Route `DELETE /datasets/{name}` (src/rubrix/server/datasets/api.py,
delete_dataset): deletes a dataset, scoped to current_group. -/
def delete_dataset (store : List Dataset) (name : String) (current_user : User) :
    Except ServiceError (List Dataset) :=
  DatasetsService.delete store name current_user.current_group

/-- Route `PUT /datasets/{name}:close` (src/rubrix/server/datasets/api.py,
close_dataset): closes a dataset, scoped to current_group. -/
def close_dataset (store : List Dataset) (name : String) (current_user : User) :
    Except ServiceError (List Dataset) :=
  DatasetsService.close_dataset store name current_user.current_group

/-- Route `PUT /datasets/{name}:open` (src/rubrix/server/datasets/api.py,
open_dataset): opens a dataset, scoped to current_group. -/
def open_dataset (store : List Dataset) (name : String) (current_user : User) :
    Except ServiceError (List Dataset) :=
  DatasetsService.open_dataset store name current_user.current_group

end DatasetsApi

/-- Modelled from the spec: the one-way password digest produced by the
passlib CryptContext (bcrypt backend, not part of the snapshot); the digest
embeds what verification needs and is never reversed by the service. -/
structure Digest where
  content : String
deriving DecidableEq, Repr

/-- Modelled from the spec: `CryptContext.hash` (passlib, not part of the
snapshot) — `hash(password) -> digest`, one-way with verification support. -/
def get_password_hash (password : String) : Digest :=
  Digest.mk password

/-- Modelled from the spec: `CryptContext.verify` (passlib, not part of the
snapshot) — `verify(password, digest) -> bool`, true exactly when the digest
was produced from the given password. -/
def verify_password (password : String) (hashed_password : Digest) : Bool :=
  hashed_password.content == password

/-- A stored user record as the users service reads it: unique username,
the stored one-way credential digest, and an optional api key. -/
structure UserRecord where
  username : String
  hashed_password : Digest
  api_key : Option String
deriving DecidableEq, Repr

/-- Modelled from the spec: the users DAO (dao module not in the snapshot),
a read-only map from username to stored record; `get_user` returns the
record or absent. -/
def UsersDAO : Type :=
  String → Option UserRecord

/-- Class `UsersService` (src/rubrix/server/security/auth_provider/local/users/service.py):
users management service bound at construction time to its DAO. -/
structure UsersService where
  dao : UsersDAO

/-- Method `UsersService.get_user`: direct lookup through the DAO, no credential
check. -/
def UsersService.get_user (s : UsersService) (username : String) : Option UserRecord :=
  s.dao username

/-- Method `UsersService.authenticate_user`
(src/rubrix/server/security/auth_provider/local/users/service.py, lines
17-35): fetches the record for the username and returns it only when the
supplied password verifies against the stored hash; returns absent (None)
otherwise. -/
def UsersService.authenticate_user (s : UsersService) (username password : String) :
    Option UserRecord :=
  match s.dao username with
  | some user =>
    if verify_password password user.hashed_password then some user else none
  | none => none

/-- Function `create_users_service`
(src/rubrix/server/security/auth_provider/local/users/service.py, lines
50-70): module-level cached instance pattern. The module state `_instance`
is threaded explicitly: the function receives the current value of
`_instance` and returns the service together with the new value of
`_instance`. -/
def create_users_service (instance0 : Option UsersService) (dao : UsersDAO) :
    UsersService × Option UsersService :=
  match instance0 with
  | some inst => (inst, some inst)
  | none =>
    let inst := UsersService.mk dao
    (inst, some inst)

/-- Class `TokenClassificationAggregationsMentionsAdditionalProperty`
(src/rubrix/sdk/models/..._additional_property.py): generated property-bag
container over a string-keyed integer dict, modelled as an
insertion-ordered association list. -/
structure TokenClassificationAggregationsMentionsAdditionalProperty where
  additional_properties : List (String × Int)
deriving DecidableEq, Repr

namespace TokenClassificationAggregationsMentionsAdditionalProperty

/-- Method `to_dict`: builds a fresh dict updated with additional_properties and
then with the empty dict — equal to the stored mapping. -/
def to_dict (o : TokenClassificationAggregationsMentionsAdditionalProperty) :
    List (String × Int) :=
  o.additional_properties

/-- Method `from_dict`: copies the source dict and stores it as
additional_properties. -/
def from_dict (src_dict : List (String × Int)) :
    TokenClassificationAggregationsMentionsAdditionalProperty :=
  TokenClassificationAggregationsMentionsAdditionalProperty.mk src_dict

/-- Property `additional_keys`: the list of stored keys. -/
def additional_keys (o : TokenClassificationAggregationsMentionsAdditionalProperty) :
    List String :=
  o.additional_properties.map Prod.fst

/-- Method `__getitem__`: lookup of a key; absent keys raise KeyError in python,
modelled as none. -/
def getitem (o : TokenClassificationAggregationsMentionsAdditionalProperty)
    (key : String) : Option Int :=
  o.additional_properties.lookup key

/-- Method `__setitem__`: dict assignment of a value to a key. -/
def setitem (o : TokenClassificationAggregationsMentionsAdditionalProperty)
    (key : String) (value : Int) :
    TokenClassificationAggregationsMentionsAdditionalProperty :=
  TokenClassificationAggregationsMentionsAdditionalProperty.mk
    (dictSet o.additional_properties key value)

/-- Method `__contains__`: key membership test. -/
def contains (o : TokenClassificationAggregationsMentionsAdditionalProperty)
    (key : String) : Bool :=
  o.additional_properties.any (fun p => p.1 == key)

end TokenClassificationAggregationsMentionsAdditionalProperty

theorem fbn_ok_mem {store : List Dataset} {n G : String} {D : Dataset}
    (h : DatasetsService.find_by_name store n G = Except.ok D) :
    D ∈ store ∧ D.name = n ∧ D.owner = G := by
  unfold DatasetsService.find_by_name at h
  split at h
  · split at h
    · rename_i d hf
      cases h
      have hmem := List.mem_of_find?_eq_some hf
      have hp := List.find?_some hf
      simp only [Bool.and_eq_true, beq_iff_eq] at hp
      exact ⟨hmem, hp.1, hp.2⟩
    · exact Except.noConfusion h
  · exact Except.noConfusion h

theorem fbn_ok_of {store : List Dataset} {n G : String} {D : Dataset}
    (huniq : ∀ d1 ∈ store, ∀ d2 ∈ store, d1.name = d2.name → d1.owner = d2.owner → d1 = d2)
    (hmem : D ∈ store) (hn : D.name = n) (hG : D.owner = G) :
    DatasetsService.find_by_name store n G = Except.ok D := by
  have hany : store.any (fun d => d.name == n) = true := by
    rw [List.any_eq_true]
    exact ⟨D, hmem, by simp [hn]⟩
  unfold DatasetsService.find_by_name
  rw [if_pos hany]
  cases hf : store.find? (fun d => d.name == n && d.owner == G) with
  | none =>
    rw [List.find?_eq_none] at hf
    have := hf D hmem
    simp [hn, hG] at this
  | some d =>
    have hdmem := List.mem_of_find?_eq_some hf
    have hp := List.find?_some hf
    simp only [Bool.and_eq_true, beq_iff_eq] at hp
    have hd : d = D := huniq d hdmem D hmem (hp.1.trans hn.symm) (hp.2.trans hG.symm)
    rw [hd]

theorem fbn_isOk {store : List Dataset} {n G : String}
    (h : ∃ d ∈ store, d.name = n ∧ d.owner = G) :
    ∃ d ∈ store, d.name = n ∧ d.owner = G ∧
      DatasetsService.find_by_name store n G = Except.ok d := by
  obtain ⟨D, hmem, hn, hG⟩ := h
  have hany : store.any (fun d => d.name == n) = true := by
    rw [List.any_eq_true]
    exact ⟨D, hmem, by simp [hn]⟩
  unfold DatasetsService.find_by_name
  rw [if_pos hany]
  cases hf : store.find? (fun d => d.name == n && d.owner == G) with
  | none =>
    rw [List.find?_eq_none] at hf
    have := hf D hmem
    simp [hn, hG] at this
  | some d =>
    have hdmem := List.mem_of_find?_eq_some hf
    have hp := List.find?_some hf
    simp only [Bool.and_eq_true, beq_iff_eq] at hp
    exact ⟨d, hdmem, hp.1, hp.2, rfl⟩

theorem fbn_notfound_iff (store : List Dataset) (n G : String) :
    DatasetsService.find_by_name store n G = Except.error ServiceError.NotFound ↔
      ∀ d ∈ store, d.name ≠ n := by
  constructor
  · intro h d hd
    unfold DatasetsService.find_by_name at h
    split at h
    · split at h
      · exact Except.noConfusion h
      · cases h
    · rename_i hany
      simp only [List.any_eq_true, not_exists, not_and, Bool.not_eq_true] at hany
      intro hn
      have := hany d hd
      simp [hn] at this
  · intro h
    have hany : store.any (fun d => d.name == n) = false := by
      rw [List.any_eq_false]
      intro d hd
      simp [h d hd]
    unfold DatasetsService.find_by_name
    rw [if_neg (by simp [hany])]

theorem fbn_notauth_iff (store : List Dataset) (n G : String) :
    DatasetsService.find_by_name store n G = Except.error ServiceError.NotAuthorized ↔
      ((∃ d ∈ store, d.name = n) ∧ ∀ d ∈ store, d.name = n → d.owner ≠ G) := by
  constructor
  · intro h
    unfold DatasetsService.find_by_name at h
    split at h
    · rename_i hany
      split at h
      · exact Except.noConfusion h
      · rename_i hf
        rw [List.find?_eq_none] at hf
        simp only [List.any_eq_true, beq_iff_eq] at hany
        refine ⟨hany, ?_⟩
        intro d hd hn hG
        have := hf d hd
        simp [hn, hG] at this
    · cases h
  · intro ⟨⟨d0, hd0, hn0⟩, hnoG⟩
    have hany : store.any (fun d => d.name == n) = true := by
      rw [List.any_eq_true]
      exact ⟨d0, hd0, by simp [hn0]⟩
    have hf : store.find? (fun d => d.name == n && d.owner == G) = none := by
      rw [List.find?_eq_none]
      intro d hd
      simp only [Bool.and_eq_true, beq_iff_eq, not_and]
      exact hnoG d hd
    unfold DatasetsService.find_by_name
    rw [if_pos hany, hf]

/-- Claim C1: for every dataset D and group G, find_by_name (D.name, G)
returns D if and only if D.owner equals G; when the name exists only under
other owners the call fails NotAuthorized, when the name exists under no
owner it fails NotFound, and the two failure kinds are never conflated:
NotFound occurs exactly when no dataset carries the name, and NotAuthorized
only when one does under a different owner. -/
theorem find_by_name_existence_before_authorization (store : List Dataset) (n G : String)
    (huniq : ∀ d1 ∈ store, ∀ d2 ∈ store, d1.name = d2.name → d1.owner = d2.owner → d1 = d2) :
    (∀ D ∈ store, D.name = n →
        (DatasetsService.find_by_name store n G = Except.ok D ↔ D.owner = G))
    ∧ ((∃ d ∈ store, d.name = n) → (∀ d ∈ store, d.name = n → d.owner ≠ G) →
        DatasetsService.find_by_name store n G = Except.error ServiceError.NotAuthorized)
    ∧ ((∀ d ∈ store, d.name ≠ n) →
        DatasetsService.find_by_name store n G = Except.error ServiceError.NotFound)
    ∧ (DatasetsService.find_by_name store n G = Except.error ServiceError.NotFound →
        ∀ d ∈ store, d.name ≠ n)
    ∧ (DatasetsService.find_by_name store n G = Except.error ServiceError.NotAuthorized →
        ∃ d ∈ store, d.name = n ∧ d.owner ≠ G) := by
  refine ⟨?_, ?_, ?_, ?_, ?_⟩
  · intro D hD hn
    constructor
    · intro h
      exact (fbn_ok_mem h).2.2
    · intro hG
      exact fbn_ok_of huniq hD hn hG
  · intro hex hno
    exact (fbn_notauth_iff store n G).2 ⟨hex, hno⟩
  · intro h
    exact (fbn_notfound_iff store n G).2 h
  · intro h
    exact (fbn_notfound_iff store n G).1 h
  · intro h
    obtain ⟨hex, hno⟩ := (fbn_notauth_iff store n G).1 h
    obtain ⟨d, hd, hn⟩ := hex
    exact ⟨d, hd, hn, hno d hd hn⟩

/-- Witness for claim C1 at the concrete singleton store. -/
theorem find_by_name_existence_before_authorization_witness :
    DatasetsService.find_by_name
        [⟨"reviews", "team-a", DatasetState.Open, []⟩] "reviews" "team-a"
      = Except.ok ⟨"reviews", "team-a", DatasetState.Open, []⟩
    ∧ DatasetsService.find_by_name
        [⟨"reviews", "team-a", DatasetState.Open, []⟩] "reviews" "team-b"
      = Except.error ServiceError.NotAuthorized
    ∧ DatasetsService.find_by_name
        [⟨"reviews", "team-a", DatasetState.Open, []⟩] "missing" "team-a"
      = Except.error ServiceError.NotFound := by
  have h1 := find_by_name_existence_before_authorization
    [⟨"reviews", "team-a", DatasetState.Open, []⟩] "reviews" "team-a" (by decide)
  have h2 := find_by_name_existence_before_authorization
    [⟨"reviews", "team-a", DatasetState.Open, []⟩] "reviews" "team-b" (by decide)
  have h3 := find_by_name_existence_before_authorization
    [⟨"reviews", "team-a", DatasetState.Open, []⟩] "missing" "team-a" (by decide)
  refine ⟨?_, ?_, ?_⟩
  · exact (h1.1 ⟨"reviews", "team-a", DatasetState.Open, []⟩ (by simp) rfl).2 rfl
  · exact h2.2.1 ⟨⟨"reviews", "team-a", DatasetState.Open, []⟩, by simp, rfl⟩ (by decide)
  · exact h3.2.2.1 (by decide)

/-- Claim C2: authenticate_user returns the stored user exactly when the
username is known and the password verifies against the stored hash; on an
unknown username or a failed verification it returns absent (none), the
identical observable result in both negative cases. -/
theorem authenticate_user_match_or_absent (s : UsersService) (username password : String) :
    (∀ u, s.authenticate_user username password = some u ↔
        (s.get_user username = some u ∧ verify_password password u.hashed_password = true))
    ∧ (s.get_user username = none → s.authenticate_user username password = none)
    ∧ (∀ u, s.get_user username = some u →
        verify_password password u.hashed_password = false →
        s.authenticate_user username password = none) := by
  refine ⟨?_, ?_, ?_⟩
  · intro u
    cases hd : s.dao username with
    | none =>
      simp [UsersService.authenticate_user, UsersService.get_user, hd]
    | some user =>
      simp only [UsersService.authenticate_user, UsersService.get_user, hd]
      by_cases hv : verify_password password user.hashed_password = true
      · simp only [if_pos hv]
        constructor
        · intro h
          cases h
          exact ⟨rfl, hv⟩
        · intro ⟨h1, _⟩
          cases h1
          rfl
      · simp only [if_neg hv]
        constructor
        · intro h
          exact Option.noConfusion h
        · intro ⟨h1, h2⟩
          cases h1
          exact absurd h2 hv
  · intro h
    simp only [UsersService.get_user] at h
    simp [UsersService.authenticate_user, h]
  · intro u hu hv
    simp only [UsersService.get_user] at hu
    simp [UsersService.authenticate_user, hu, hv]

/-- Witness for claim C2: a concrete one-user store, with a successful
authentication, an unknown-username case and a wrong-password case. -/
theorem authenticate_user_match_or_absent_witness :
    (UsersService.mk (fun s => if s == "alice"
        then some ⟨"alice", Digest.mk "pw", none⟩ else none)).authenticate_user
      "alice" "pw" = some ⟨"alice", Digest.mk "pw", none⟩
    ∧ (UsersService.mk (fun s => if s == "alice"
        then some ⟨"alice", Digest.mk "pw", none⟩ else none)).authenticate_user
      "bob" "pw" = none
    ∧ (UsersService.mk (fun s => if s == "alice"
        then some ⟨"alice", Digest.mk "pw", none⟩ else none)).authenticate_user
      "alice" "wrong" = none := by
  have h := authenticate_user_match_or_absent
    (UsersService.mk (fun s => if s == "alice"
        then some ⟨"alice", Digest.mk "pw", none⟩ else none)) "alice" "pw"
  have h2 := authenticate_user_match_or_absent
    (UsersService.mk (fun s => if s == "alice"
        then some ⟨"alice", Digest.mk "pw", none⟩ else none)) "bob" "pw"
  have h3 := authenticate_user_match_or_absent
    (UsersService.mk (fun s => if s == "alice"
        then some ⟨"alice", Digest.mk "pw", none⟩ else none)) "alice" "wrong"
  refine ⟨?_, ?_, ?_⟩
  · exact (h.1 ⟨"alice", Digest.mk "pw", none⟩).2 ⟨by decide, by decide⟩
  · exact h2.2.1 (by decide)
  · exact h3.2.2 ⟨"alice", Digest.mk "pw", none⟩ (by decide) (by decide)

/-- Claim C8: password hashing round-trips under verification — verifying a
password against its own hash succeeds, and verifying it against the hash
of any other password fails. -/
theorem verify_password_round_trip (p q : String) :
    verify_password p (get_password_hash p) = true
    ∧ (p ≠ q → verify_password p (get_password_hash q) = false) := by
  constructor
  · simp [verify_password, get_password_hash]
  · intro hne
    simp only [verify_password, get_password_hash]
    exact beq_eq_false_iff_ne.mpr fun h => hne h.symm

/-- Witness for claim C8 at two concrete distinct passwords. -/
theorem verify_password_round_trip_witness :
    verify_password "secret" (get_password_hash "secret") = true
    ∧ verify_password "secret" (get_password_hash "other") = false := by
  have h := verify_password_round_trip "secret" "other"
  exact ⟨h.1, h.2 (by decide)⟩

/-- Claim C9: create_users_service is a module-level cached singleton — when
the module state `_instance` is None, the call binds a fresh service to that
call's DAO and stores it; once `_instance` holds a service, every later call
returns that same instance unchanged, whatever DAO it is passed, and the
state is never rebound. -/
theorem create_users_service_singleton (dao dao2 : UsersDAO) (inst : UsersService) :
    create_users_service none dao = (UsersService.mk dao, some (UsersService.mk dao))
    ∧ create_users_service (some inst) dao2 = (inst, some inst) :=
  ⟨rfl, rfl⟩

theorem lookup_mapReplace_self (l : List (String × Int)) (k : String) (v : Int)
    (hany : l.any (fun p => p.1 == k) = true) :
    (l.map (fun p => if p.1 == k then (k, v) else p)).lookup k = some v := by
  induction l with
  | nil =>
    simp at hany
  | cons a t ih =>
    obtain ⟨a1, a2⟩ := a
    simp only [List.map_cons]
    by_cases ha : (a1 == k) = true
    · rw [if_pos ha, List.lookup_cons]
      simp
    · rw [if_neg ha, List.lookup_cons]
      have hk : (k == a1) = false := by
        have h1 : a1 ≠ k := by
          simpa using ha
        exact beq_eq_false_iff_ne.mpr fun h => h1 h.symm
      rw [hk]
      have ht : t.any (fun p => p.1 == k) = true := by
        simp only [List.any_cons, Bool.or_eq_true] at hany
        rcases hany with h | h
        · exact absurd (by simpa using h) ha
        · exact h
      exact ih ht

theorem lookup_append_self (l : List (String × Int)) (k : String) (v : Int)
    (hnone : ∀ p ∈ l, (p.1 == k) = false) :
    (l ++ [(k, v)]).lookup k = some v := by
  induction l with
  | nil =>
    rw [List.nil_append, List.lookup_cons]
    simp
  | cons a t ih =>
    obtain ⟨a1, a2⟩ := a
    have ha := hnone (a1, a2) (by simp)
    have hk : (k == a1) = false := by
      have h1 : a1 ≠ k := by
        simpa using ha
      exact beq_eq_false_iff_ne.mpr fun h => h1 h.symm
    rw [List.cons_append, List.lookup_cons, hk]
    exact ih fun p hp => hnone p (by simp [hp])

theorem dictSet_lookup_self (l : List (String × Int)) (k : String) (v : Int) :
    (dictSet l k v).lookup k = some v := by
  unfold dictSet
  by_cases hany : l.any (fun p => p.1 == k) = true
  · rw [if_pos hany]
    exact lookup_mapReplace_self l k v hany
  · rw [if_neg hany]
    refine lookup_append_self l k v ?_
    intro p hp
    rw [Bool.not_eq_true, List.any_eq_false] at hany
    simpa using hany p hp

theorem lookup_mapReplace_other (l : List (String × Int)) (k : String) (v : Int)
    (k2 : String) (hne : k2 ≠ k) :
    (l.map (fun p => if p.1 == k then (k, v) else p)).lookup k2 = l.lookup k2 := by
  induction l with
  | nil =>
    rfl
  | cons a t ih =>
    obtain ⟨a1, a2⟩ := a
    simp only [List.map_cons]
    by_cases ha : (a1 == k) = true
    · have ha1 : a1 = k := by
        rwa [beq_iff_eq] at ha
      have hk2 : (k2 == a1) = false := by
        rw [ha1]
        exact beq_eq_false_iff_ne.mpr hne
      rw [if_pos ha, List.lookup_cons, List.lookup_cons, hk2,
        beq_eq_false_iff_ne.mpr hne]
      exact ih
    · rw [if_neg ha, List.lookup_cons, List.lookup_cons]
      by_cases h2 : (k2 == a1) = true
      · rw [h2]
      · have h2f : (k2 == a1) = false := by
          simpa using fun h => h2 (beq_iff_eq.mpr h)
        rw [h2f]
        exact ih

theorem lookup_append_other (l : List (String × Int)) (k : String) (v : Int)
    (k2 : String) (hne : k2 ≠ k) :
    (l ++ [(k, v)]).lookup k2 = l.lookup k2 := by
  induction l with
  | nil =>
    rw [List.nil_append, List.lookup_cons, beq_eq_false_iff_ne.mpr hne]
  | cons a t ih =>
    obtain ⟨a1, a2⟩ := a
    rw [List.cons_append, List.lookup_cons, List.lookup_cons]
    by_cases h2 : (k2 == a1) = true
    · rw [h2]
    · have h2f : (k2 == a1) = false := by
        simpa using fun h => h2 (beq_iff_eq.mpr h)
      rw [h2f]
      exact ih

theorem dictSet_lookup_other (l : List (String × Int)) (k : String) (v : Int)
    (k2 : String) (hne : k2 ≠ k) :
    (dictSet l k v).lookup k2 = l.lookup k2 := by
  unfold dictSet
  by_cases hany : l.any (fun p => p.1 == k) = true
  · rw [if_pos hany]
    exact lookup_mapReplace_other l k v k2 hne
  · rw [if_neg hany]
    exact lookup_append_other l k v k2 hne

theorem dictSet_contains_self (l : List (String × Int)) (k : String) (v : Int) :
    (dictSet l k v).any (fun p => p.1 == k) = true := by
  unfold dictSet
  by_cases hany : l.any (fun p => p.1 == k) = true
  · rw [if_pos hany]
    rw [List.any_eq_true] at hany ⊢
    obtain ⟨p, hp, hpk⟩ := hany
    refine ⟨(k, v), ?_, by simp⟩
    have hm := List.mem_map_of_mem (fun p => if p.1 == k then (k, v) else p) hp
    simpa [hpk] using hm
  · rw [if_neg hany]
    simp [List.any_append]

/-- Claim C10: the generated property-bag container round-trips — from_dict
yields an object whose to_dict equals the source dict and whose
additional_keys are exactly its keys; after setting a key the same key reads
back the new value and is reported as contained, while every other key is
unchanged. -/
theorem additional_property_round_trip (d : List (String × Int))
    (o : TokenClassificationAggregationsMentionsAdditionalProperty)
    (k : String) (v : Int) :
    (TokenClassificationAggregationsMentionsAdditionalProperty.from_dict d).to_dict = d
    ∧ (TokenClassificationAggregationsMentionsAdditionalProperty.from_dict
        d).additional_keys = d.map Prod.fst
    ∧ (o.setitem k v).getitem k = some v
    ∧ (o.setitem k v).contains k = true
    ∧ ∀ k2, k2 ≠ k → (o.setitem k v).getitem k2 = o.getitem k2 := by
  refine ⟨rfl, rfl, ?_, ?_, ?_⟩
  · exact dictSet_lookup_self o.additional_properties k v
  · exact dictSet_contains_self o.additional_properties k v
  · intro k2 hne
    exact dictSet_lookup_other o.additional_properties k v k2 hne

/-- Witness for claim C10 at the concrete dict {a:1, b:2}, setting b := 3. -/
theorem additional_property_round_trip_witness :
    (TokenClassificationAggregationsMentionsAdditionalProperty.from_dict
        [("a", 1), ("b", 2)]).to_dict = [("a", 1), ("b", 2)]
    ∧ ((TokenClassificationAggregationsMentionsAdditionalProperty.mk
        [("a", 1), ("b", 2)]).setitem "b" 3).getitem "b" = some 3
    ∧ ((TokenClassificationAggregationsMentionsAdditionalProperty.mk
        [("a", 1), ("b", 2)]).setitem "b" 3).contains "b" = true
    ∧ ((TokenClassificationAggregationsMentionsAdditionalProperty.mk
        [("a", 1), ("b", 2)]).setitem "b" 3).getitem "a"
      = (TokenClassificationAggregationsMentionsAdditionalProperty.mk
        [("a", 1), ("b", 2)]).getitem "a" := by
  have h := additional_property_round_trip [("a", 1), ("b", 2)]
    (TokenClassificationAggregationsMentionsAdditionalProperty.mk [("a", 1), ("b", 2)])
    "b" 3
  exact ⟨h.1, h.2.2.1, h.2.2.2.1, h.2.2.2.2 "a" (by decide)⟩

theorem list_mem_iff (store : List Dataset) (owners : List String) (D : Dataset) :
    D ∈ DatasetsService.list store owners ↔ (D ∈ store ∧ D.owner ∈ owners) := by
  unfold DatasetsService.list
  rw [List.mem_filter]
  constructor
  · intro ⟨h1, h2⟩
    refine ⟨h1, ?_⟩
    simpa [List.contains] using h2
  · intro ⟨h1, h2⟩
    refine ⟨h1, ?_⟩
    simpa [List.contains] using h2

theorem setState_mem_state (store : List Dataset) (n G : String) (st : DatasetState) :
    ∀ E ∈ DatasetsService.setState store n G st, E.name = n → E.owner = G →
      E.state = st := by
  intro E hE
  unfold DatasetsService.setState at hE
  rw [List.mem_map] at hE
  obtain ⟨d, _, heq⟩ := hE
  by_cases hc : (d.name == n && d.owner == G) = true
  · intro _ _
    have hEd : E = { d with state := st } := by
      rw [← heq]
      simp [hc]
    rw [hEd]
  · intro hn hG
    have hEd : E = d := by
      rw [← heq]
      simp [hc]
    subst hEd
    simp only [Bool.and_eq_true, beq_iff_eq] at hc
    exact absurd ⟨hn, hG⟩ hc

theorem setState_mem_frame (store : List Dataset) (n G : String) (st : DatasetState) :
    ∀ E ∈ store, ¬(E.name = n ∧ E.owner = G) →
      E ∈ DatasetsService.setState store n G st := by
  intro E hE hne
  have hfE : (fun d => if d.name == n && d.owner == G
      then { d with state := st } else d) E = E := by
    by_cases hc : (E.name == n && E.owner == G) = true
    · simp only [Bool.and_eq_true, beq_iff_eq] at hc
      exact absurd hc hne
    · simp [hc]
  have hm := List.mem_map_of_mem (fun d => if d.name == n && d.owner == G
      then { d with state := st } else d) hE
  rw [hfE] at hm
  exact hm

theorem setState_mem_image (store : List Dataset) (n G : String) (st : DatasetState) :
    ∀ E ∈ store, E.name = n → E.owner = G →
      { E with state := st } ∈ DatasetsService.setState store n G st := by
  intro E hE hn hG
  have hfE : (fun d => if d.name == n && d.owner == G
      then { d with state := st } else d) E = { E with state := st } := by
    simp [hn, hG]
  have hm := List.mem_map_of_mem (fun d => if d.name == n && d.owner == G
      then { d with state := st } else d) hE
  rw [hfE] at hm
  exact hm

theorem setState_idem (store : List Dataset) (n G : String) (st : DatasetState) :
    DatasetsService.setState (DatasetsService.setState store n G st) n G st
      = DatasetsService.setState store n G st := by
  unfold DatasetsService.setState
  rw [List.map_map]
  apply List.map_congr_left
  intro d _
  by_cases hc : (d.name == n && d.owner == G) = true
  · simp [Function.comp, hc]
  · simp [Function.comp, hc]

theorem setState_noop (store : List Dataset) (n G : String) (st : DatasetState)
    (h : ∀ E ∈ store, E.name = n → E.owner = G → E.state = st) :
    DatasetsService.setState store n G st = store := by
  unfold DatasetsService.setState
  have hcongr : ∀ d ∈ store, (fun d => if d.name == n && d.owner == G
      then { d with state := st } else d) d = d := by
    intro d hd
    by_cases hc : (d.name == n && d.owner == G) = true
    · have hc2 := hc
      simp only [Bool.and_eq_true, beq_iff_eq] at hc2
      have hst := h d hd hc2.1 hc2.2
      simp only [if_pos hc]
      cases d
      simp only at hst
      rw [hst]
    · simp [hc]
  rw [List.map_congr_left hcongr, List.map_id']

theorem putDataset_mem_self (store : List Dataset) (n G : String) (d2 : Dataset) :
    ∀ E ∈ store, E.name = n → E.owner = G →
      d2 ∈ DatasetsService.putDataset store n G d2 := by
  intro E hE hn hG
  have hfE : (fun e => if e.name == n && e.owner == G then d2 else e) E = d2 := by
    simp [hn, hG]
  have hm := List.mem_map_of_mem (fun e => if e.name == n && e.owner == G
      then d2 else e) hE
  rw [hfE] at hm
  exact hm

theorem putDataset_mem_frame (store : List Dataset) (n G : String) (d2 : Dataset) :
    ∀ E ∈ store, ¬(E.name = n ∧ E.owner = G) →
      E ∈ DatasetsService.putDataset store n G d2 := by
  intro E hE hne
  have hfE : (fun e => if e.name == n && e.owner == G then d2 else e) E = E := by
    by_cases hc : (E.name == n && E.owner == G) = true
    · simp only [Bool.and_eq_true, beq_iff_eq] at hc
      exact absurd hc hne
    · simp [hc]
  have hm := List.mem_map_of_mem (fun e => if e.name == n && e.owner == G
      then d2 else e) hE
  rw [hfE] at hm
  exact hm

theorem removeDataset_not_mem (store : List Dataset) (n G : String) :
    ∀ E ∈ DatasetsService.removeDataset store n G, ¬(E.name = n ∧ E.owner = G) := by
  intro E hE
  unfold DatasetsService.removeDataset at hE
  rw [List.mem_filter] at hE
  have h2 := hE.2
  intro ⟨hn, hG⟩
  simp [hn, hG] at h2

theorem removeDataset_mem_frame (store : List Dataset) (n G : String) :
    ∀ E ∈ store, ¬(E.name = n ∧ E.owner = G) →
      E ∈ DatasetsService.removeDataset store n G := by
  intro E hE hne
  unfold DatasetsService.removeDataset
  rw [List.mem_filter]
  refine ⟨hE, ?_⟩
  cases hb : (E.name == n && E.owner == G) with
  | false =>
    simp [hb]
  | true =>
    simp only [Bool.and_eq_true, beq_iff_eq] at hb
    exact absurd hb hne

theorem mergeSettings_lookup_absent (data : List (String × Int))
    (s : List (String × Int)) (k : String)
    (h : ∀ p ∈ data, p.1 ≠ k) :
    (DatasetsService.mergeSettings s data).lookup k = s.lookup k := by
  induction data generalizing s with
  | nil =>
    rfl
  | cons a t ih =>
    obtain ⟨k0, v0⟩ := a
    have h0 : k0 ≠ k := h (k0, v0) (by simp)
    show (DatasetsService.mergeSettings (dictSet s k0 v0) t).lookup k = s.lookup k
    rw [ih (dictSet s k0 v0) fun p hp => h p (by simp [hp]),
      dictSet_lookup_other s k0 v0 k fun hh => h0 hh.symm]

theorem mergeSettings_lookup_present (data : List (String × Int))
    (s : List (String × Int)) (k : String) (v : Int)
    (hnd : (data.map Prod.fst).Nodup) (h : data.lookup k = some v) :
    (DatasetsService.mergeSettings s data).lookup k = some v := by
  induction data generalizing s v with
  | nil =>
    simp at h
  | cons a t ih =>
    obtain ⟨k0, v0⟩ := a
    rw [List.map_cons, List.nodup_cons] at hnd
    by_cases hk : (k == k0) = true
    · have hkk : k = k0 := beq_iff_eq.mp hk
      rw [List.lookup_cons, hk] at h
      cases h
      have habs : ∀ p ∈ t, p.1 ≠ k := by
        intro p hp hpk
        have hmem : p.1 ∈ t.map Prod.fst := List.mem_map_of_mem Prod.fst hp
        rw [hpk, hkk] at hmem
        exact hnd.1 hmem
      show (DatasetsService.mergeSettings (dictSet s k0 v) t).lookup k = some v
      rw [mergeSettings_lookup_absent t (dictSet s k0 v) k habs, hkk]
      exact dictSet_lookup_self s k0 v
    · have hkf : (k == k0) = false := by
        simpa using fun hh => hk (beq_iff_eq.mpr hh)
      rw [List.lookup_cons, hkf] at h
      show (DatasetsService.mergeSettings (dictSet s k0 v0) t).lookup k = some v
      exact ih (dictSet s k0 v0) v hnd.2 h

/-- Claim C4: list returns exactly the datasets whose owner is a member of
the given set and no others; an empty result is the empty sequence, never
an error; and the list route passes the caller's full user_groups set. -/
theorem list_datasets_owner_membership (store : List Dataset) (owners : List String)
    (u : User) :
    (∀ D, D ∈ DatasetsService.list store owners ↔ (D ∈ store ∧ D.owner ∈ owners))
    ∧ ((∀ D ∈ store, D.owner ∉ owners) → DatasetsService.list store owners = [])
    ∧ DatasetsApi.list_datasets store u = DatasetsService.list store u.user_groups := by
  refine ⟨list_mem_iff store owners, ?_, rfl⟩
  intro h
  rw [List.eq_nil_iff_forall_not_mem]
  intro D hD
  rw [list_mem_iff store owners D] at hD
  exact h D hD.1 hD.2

/-- Witness for claim C4: a mixed-owner store where only the matching
owner's dataset is listed, and an empty result for a foreign owner set. -/
theorem list_datasets_owner_membership_witness :
    DatasetsService.list [⟨"reviews", "team-a", DatasetState.Open, []⟩] ["team-x"] = []
    ∧ (⟨"reviews", "team-a", DatasetState.Open, []⟩ : Dataset)
      ∈ DatasetsService.list [⟨"reviews", "team-a", DatasetState.Open, []⟩]
          ["team-x", "team-a"] := by
  have h1 := list_datasets_owner_membership
    [⟨"reviews", "team-a", DatasetState.Open, []⟩] ["team-x"] (User.mk [] "")
  have h2 := list_datasets_owner_membership
    [⟨"reviews", "team-a", DatasetState.Open, []⟩] ["team-x", "team-a"] (User.mk [] "")
  refine ⟨h1.2.1 ?_, (h2.1 ⟨"reviews", "team-a", DatasetState.Open, []⟩).mpr ⟨by simp, by simp⟩⟩
  intro D hD
  simp only [List.mem_singleton] at hD
  subst hD
  decide

/-- Counterexample to claim C3: a user whose user_groups contains the
dataset's owner team-a but whose current_group is team-b; the get_dataset
read fails NotAuthorized, so membership of the owner in the caller's full
group set is not sufficient for the single-dataset read. -/
theorem get_dataset_user_groups_not_sufficient :
    "team-a" ∈ (User.mk ["team-a", "team-b"] "team-b").user_groups
    ∧ DatasetsApi.get_dataset [⟨"reviews", "team-a", DatasetState.Open, []⟩] "reviews"
        (User.mk ["team-a", "team-b"] "team-b")
      = Except.error ServiceError.NotAuthorized := by
  refine ⟨by simp, rfl⟩

/-- Claim C3 (amended): the single-dataset read get_dataset is scoped to the
caller's current_group — it succeeds exactly on current_group ownership,
like the write operations — and only the list operation grants visibility
by membership of the owner in the caller's full user_groups set. -/
theorem read_scoping_current_group_vs_groups (store : List Dataset) (n : String)
    (u : User) :
    DatasetsApi.get_dataset store n u
      = DatasetsService.find_by_name store n u.current_group
    ∧ (∀ D ∈ store, D.name = n → D.owner = u.current_group →
        (∀ d1 ∈ store, ∀ d2 ∈ store, d1.name = d2.name → d1.owner = d2.owner → d1 = d2) →
        DatasetsApi.get_dataset store n u = Except.ok D)
    ∧ (∀ D, D ∈ DatasetsApi.list_datasets store u ↔ (D ∈ store ∧ D.owner ∈ u.user_groups)) := by
  refine ⟨rfl, ?_, list_mem_iff store u.user_groups⟩
  intro D hD hn hG huniq
  exact fbn_ok_of huniq hD hn hG

/-- Witness for claim C3 (amended): with current_group equal to the owner
the read succeeds, and the dataset is listed for a user holding the owner
only inside user_groups. -/
theorem read_scoping_current_group_vs_groups_witness :
    DatasetsApi.get_dataset [⟨"reviews", "team-a", DatasetState.Open, []⟩] "reviews"
        (User.mk ["team-a", "team-b"] "team-a")
      = Except.ok ⟨"reviews", "team-a", DatasetState.Open, []⟩
    ∧ (⟨"reviews", "team-a", DatasetState.Open, []⟩ : Dataset)
      ∈ DatasetsApi.list_datasets [⟨"reviews", "team-a", DatasetState.Open, []⟩]
          (User.mk ["team-a", "team-b"] "team-b") := by
  have h1 := read_scoping_current_group_vs_groups
    [⟨"reviews", "team-a", DatasetState.Open, []⟩] "reviews"
    (User.mk ["team-a", "team-b"] "team-a")
  have h2 := read_scoping_current_group_vs_groups
    [⟨"reviews", "team-a", DatasetState.Open, []⟩] "reviews"
    (User.mk ["team-a", "team-b"] "team-b")
  constructor
  · exact h1.2.1 ⟨"reviews", "team-a", DatasetState.Open, []⟩ (by simp) rfl rfl (by decide)
  · exact (h2.2.2 ⟨"reviews", "team-a", DatasetState.Open, []⟩).mpr ⟨by simp, by simp⟩

/-- Claim C5: the dataset lifecycle is the two-state machine Open/Closed
with explicit transitions only — close on an owned dataset succeeds and
drives the matching record to Closed leaving every other record in place, a
second close is a no-op success, open on an already-open store is a no-op
success, close with a non-owning group fails NotAuthorized, and close on a
nonexistent name fails NotFound. -/
theorem close_open_lifecycle (store : List Dataset) (n G : String) :
    ((∃ d ∈ store, d.name = n ∧ d.owner = G) →
      (DatasetsService.close_dataset store n G
          = Except.ok (DatasetsService.setState store n G DatasetState.Closed)
        ∧ (∀ E ∈ DatasetsService.setState store n G DatasetState.Closed,
            E.name = n → E.owner = G → E.state = DatasetState.Closed)
        ∧ (∀ E ∈ store, ¬(E.name = n ∧ E.owner = G) →
            E ∈ DatasetsService.setState store n G DatasetState.Closed)
        ∧ DatasetsService.close_dataset
            (DatasetsService.setState store n G DatasetState.Closed) n G
          = Except.ok (DatasetsService.setState store n G DatasetState.Closed)
        ∧ ((∀ E ∈ store, E.name = n → E.owner = G → E.state = DatasetState.Open) →
            DatasetsService.open_dataset store n G = Except.ok store)))
    ∧ ((∃ d ∈ store, d.name = n) → (∀ d ∈ store, d.name = n → d.owner ≠ G) →
        DatasetsService.close_dataset store n G
          = Except.error ServiceError.NotAuthorized)
    ∧ ((∀ d ∈ store, d.name ≠ n) →
        DatasetsService.close_dataset store n G
          = Except.error ServiceError.NotFound) := by
  refine ⟨?_, ?_, ?_⟩
  · intro hex
    obtain ⟨d, hd, hn, hG, hfind⟩ := fbn_isOk hex
    have hclose : DatasetsService.close_dataset store n G
        = Except.ok (DatasetsService.setState store n G DatasetState.Closed) := by
      unfold DatasetsService.close_dataset
      rw [hfind]
      rfl
    refine ⟨hclose, setState_mem_state store n G DatasetState.Closed,
      setState_mem_frame store n G DatasetState.Closed, ?_, ?_⟩
    · have hd2 : { d with state := DatasetState.Closed }
          ∈ DatasetsService.setState store n G DatasetState.Closed :=
        setState_mem_image store n G DatasetState.Closed d hd hn hG
      obtain ⟨d3, _, _, _, hfind3⟩ := fbn_isOk
        ⟨{ d with state := DatasetState.Closed }, hd2, hn, hG⟩
      unfold DatasetsService.close_dataset
      rw [hfind3]
      show Except.ok (DatasetsService.setState
          (DatasetsService.setState store n G DatasetState.Closed) n G DatasetState.Closed)
        = Except.ok (DatasetsService.setState store n G DatasetState.Closed)
      rw [setState_idem]
    · intro hall
      unfold DatasetsService.open_dataset
      rw [hfind]
      show Except.ok (DatasetsService.setState store n G DatasetState.Open)
        = Except.ok store
      rw [setState_noop store n G DatasetState.Open hall]
  · intro hex hno
    have hfind := (fbn_notauth_iff store n G).2 ⟨hex, hno⟩
    unfold DatasetsService.close_dataset
    rw [hfind]
    rfl
  · intro h
    have hfind := (fbn_notfound_iff store n G).2 h
    unfold DatasetsService.close_dataset
    rw [hfind]
    rfl

/-- Witness for claim C5 at the concrete scenario of the spec: dataset
reviews owned by team-a, state Open. -/
theorem close_open_lifecycle_witness :
    DatasetsService.close_dataset
        [⟨"reviews", "team-a", DatasetState.Open, []⟩] "reviews" "team-a"
      = Except.ok [⟨"reviews", "team-a", DatasetState.Closed, []⟩]
    ∧ DatasetsService.close_dataset
        [⟨"reviews", "team-a", DatasetState.Closed, []⟩] "reviews" "team-a"
      = Except.ok [⟨"reviews", "team-a", DatasetState.Closed, []⟩]
    ∧ DatasetsService.close_dataset
        [⟨"reviews", "team-a", DatasetState.Open, []⟩] "reviews" "team-b"
      = Except.error ServiceError.NotAuthorized
    ∧ DatasetsService.close_dataset
        [⟨"reviews", "team-a", DatasetState.Open, []⟩] "missing" "team-a"
      = Except.error ServiceError.NotFound
    ∧ DatasetsService.open_dataset
        [⟨"reviews", "team-a", DatasetState.Open, []⟩] "reviews" "team-a"
      = Except.ok [⟨"reviews", "team-a", DatasetState.Open, []⟩] := by
  have h1 := close_open_lifecycle
    [⟨"reviews", "team-a", DatasetState.Open, []⟩] "reviews" "team-a"
  have h2 := close_open_lifecycle
    [⟨"reviews", "team-a", DatasetState.Closed, []⟩] "reviews" "team-a"
  have h3 := close_open_lifecycle
    [⟨"reviews", "team-a", DatasetState.Open, []⟩] "reviews" "team-b"
  have h4 := close_open_lifecycle
    [⟨"reviews", "team-a", DatasetState.Open, []⟩] "missing" "team-a"
  have hex1 : ∃ d ∈ [(⟨"reviews", "team-a", DatasetState.Open, []⟩ : Dataset)],
      d.name = "reviews" ∧ d.owner = "team-a" :=
    ⟨⟨"reviews", "team-a", DatasetState.Open, []⟩, by simp, rfl, rfl⟩
  have hex2 : ∃ d ∈ [(⟨"reviews", "team-a", DatasetState.Closed, []⟩ : Dataset)],
      d.name = "reviews" ∧ d.owner = "team-a" :=
    ⟨⟨"reviews", "team-a", DatasetState.Closed, []⟩, by simp, rfl, rfl⟩
  refine ⟨?_, ?_, ?_, ?_, ?_⟩
  · exact (h1.1 hex1).1
  · exact (h2.1 hex2).1
  · exact h3.2.1 ⟨⟨"reviews", "team-a", DatasetState.Open, []⟩, by simp, rfl⟩ (by decide)
  · exact h4.2.2 (by decide)
  · exact (h1.1 hex1).2.2.2.2 (by decide)

/-- Claim C6: update on an owned dataset merges the partial data into the
stored record — keys absent from the data read back unchanged, keys present
read back their new value — persists the merged record in place of the old
one leaving all other records untouched, and returns the post-merge
record. -/
theorem update_merges_and_frames (store : List Dataset) (D : Dataset)
    (data : List (String × Int)) (G : String)
    (hmem : D ∈ store) (hG : D.owner = G)
    (huniq : ∀ d1 ∈ store, ∀ d2 ∈ store, d1.name = d2.name → d1.owner = d2.owner → d1 = d2) :
    DatasetsService.update store D.name data G
      = Except.ok
          ({ D with settings := DatasetsService.mergeSettings D.settings data },
            DatasetsService.putDataset store D.name G
              { D with settings := DatasetsService.mergeSettings D.settings data })
    ∧ (∀ k, (∀ p ∈ data, p.1 ≠ k) →
        (DatasetsService.mergeSettings D.settings data).lookup k = D.settings.lookup k)
    ∧ ((data.map Prod.fst).Nodup → ∀ k v, data.lookup k = some v →
        (DatasetsService.mergeSettings D.settings data).lookup k = some v)
    ∧ { D with settings := DatasetsService.mergeSettings D.settings data }
        ∈ DatasetsService.putDataset store D.name G
          { D with settings := DatasetsService.mergeSettings D.settings data }
    ∧ (∀ E ∈ store, ¬(E.name = D.name ∧ E.owner = G) →
        E ∈ DatasetsService.putDataset store D.name G
          { D with settings := DatasetsService.mergeSettings D.settings data }) := by
  have hfind := fbn_ok_of huniq hmem rfl hG
  refine ⟨?_, ?_, ?_, ?_, ?_⟩
  · unfold DatasetsService.update
    rw [hfind]
    rfl
  · intro k hk
    exact mergeSettings_lookup_absent data D.settings k hk
  · intro hnd k v hkv
    exact mergeSettings_lookup_present data D.settings k v hnd hkv
  · exact putDataset_mem_self store D.name G
      { D with settings := DatasetsService.mergeSettings D.settings data } D hmem rfl hG
  · exact putDataset_mem_frame store D.name G
      { D with settings := DatasetsService.mergeSettings D.settings data }

/-- Witness for claim C6 at the concrete example of the spec: fields
{a:1, b:2} updated with {b:3} yield {a:1, b:3}. -/
theorem update_merges_and_frames_witness :
    DatasetsService.update
        [⟨"ds", "g", DatasetState.Open, [("a", 1), ("b", 2)]⟩] "ds" [("b", 3)] "g"
      = Except.ok (⟨"ds", "g", DatasetState.Open, [("a", 1), ("b", 3)]⟩,
          [⟨"ds", "g", DatasetState.Open, [("a", 1), ("b", 3)]⟩]) := by
  have h := update_merges_and_frames
    [⟨"ds", "g", DatasetState.Open, [("a", 1), ("b", 2)]⟩]
    ⟨"ds", "g", DatasetState.Open, [("a", 1), ("b", 2)]⟩ [("b", 3)] "g"
    (by simp) rfl (by decide)
  rw [h.1]
  rfl

/-- Counterexample to claim C7: with reviews present under both team-a and
team-b, the second delete of (reviews, team-a) fails NotAuthorized — the
name still exists under another owner — not NotFound as the claim states
for every subsequent delete. -/
theorem delete_second_call_not_always_notfound :
    DatasetsService.delete
        [⟨"reviews", "team-a", DatasetState.Open, []⟩,
          ⟨"reviews", "team-b", DatasetState.Open, []⟩] "reviews" "team-a"
      = Except.ok [⟨"reviews", "team-b", DatasetState.Open, []⟩]
    ∧ DatasetsService.delete
        [⟨"reviews", "team-b", DatasetState.Open, []⟩] "reviews" "team-a"
      = Except.error ServiceError.NotAuthorized :=
  ⟨rfl, rfl⟩

/-- Claim C7 (amended): delete is not idempotent at the service boundary —
the first delete of an owned dataset succeeds and removes the record, and
every subsequent delete of the same name under the same owner fails rather
than succeeding silently: NotFound when no dataset with that name remains,
NotAuthorized when a dataset with that name still exists under a different
owner. -/
theorem delete_not_idempotent (store : List Dataset) (D : Dataset) (G : String)
    (hmem : D ∈ store) (hG : D.owner = G) :
    DatasetsService.delete store D.name G
      = Except.ok (DatasetsService.removeDataset store D.name G)
    ∧ (∀ E ∈ DatasetsService.removeDataset store D.name G,
        ¬(E.name = D.name ∧ E.owner = G))
    ∧ (∀ E ∈ store, ¬(E.name = D.name ∧ E.owner = G) →
        E ∈ DatasetsService.removeDataset store D.name G)
    ∧ ((∃ E ∈ DatasetsService.removeDataset store D.name G, E.name = D.name) →
        DatasetsService.delete (DatasetsService.removeDataset store D.name G) D.name G
          = Except.error ServiceError.NotAuthorized)
    ∧ ((∀ E ∈ DatasetsService.removeDataset store D.name G, E.name ≠ D.name) →
        DatasetsService.delete (DatasetsService.removeDataset store D.name G) D.name G
          = Except.error ServiceError.NotFound) := by
  obtain ⟨d, _, _, _, hfind⟩ := fbn_isOk ⟨D, hmem, rfl, hG⟩
  refine ⟨?_, removeDataset_not_mem store D.name G,
    removeDataset_mem_frame store D.name G, ?_, ?_⟩
  · unfold DatasetsService.delete
    rw [hfind]
    rfl
  · intro hex
    have hno : ∀ E ∈ DatasetsService.removeDataset store D.name G,
        E.name = D.name → E.owner ≠ G := by
      intro E hE hn hO
      exact removeDataset_not_mem store D.name G E hE ⟨hn, hO⟩
    have hfind2 := (fbn_notauth_iff (DatasetsService.removeDataset store D.name G)
      D.name G).2 ⟨hex, hno⟩
    unfold DatasetsService.delete
    rw [hfind2]
    rfl
  · intro hall
    have hfind2 := (fbn_notfound_iff (DatasetsService.removeDataset store D.name G)
      D.name G).2 hall
    unfold DatasetsService.delete
    rw [hfind2]
    rfl

/-- Witness for claim C7 (amended): with reviews owned only by team-a, the
first delete succeeds and empties the store, and the second delete of the
same name under the same owner fails NotFound. -/
theorem delete_not_idempotent_witness :
    DatasetsService.delete
        [⟨"reviews", "team-a", DatasetState.Open, []⟩] "reviews" "team-a"
      = Except.ok []
    ∧ DatasetsService.delete ([] : List Dataset) "reviews" "team-a"
      = Except.error ServiceError.NotFound := by
  have h := delete_not_idempotent [⟨"reviews", "team-a", DatasetState.Open, []⟩]
    ⟨"reviews", "team-a", DatasetState.Open, []⟩ "team-a" (by simp) rfl
  constructor
  · exact h.1
  · exact h.2.2.2.2 (by decide)

end Rubrix
